import Mathlib

/-!
Verification of the `tanktacticsgame` core library (`src/tanktacticsgame/src/lib.rs`).

The Rust code is shallowly embedded:
* `HashMap` becomes an association list (`List (κ × α)`) with first-match lookup;
  `HashMap::insert` becomes cons-after-erase, `HashMap::remove` becomes erase.
* `u32`/`u64` values become `Nat`; arithmetic that Rust treats as an overflow
  error (`+=`/`-=` out of range, which panics in a debug build) is modelled by
  `addU32`/`subU32` returning `none`, and a slice index out of bounds or an
  `unwrap` failure likewise yields `none`.  A function returning `none` models a
  Rust panic (or, for the spawn loop, running out of fuel).
* The ChaCha12 keystream is abstracted as the infinite stream `Nat → Nat` of
  successive `next_u64` values; cloning the generator copies the stream,
  consuming `k` draws shifts it by `k`.
* ECDSA signature parsing/lookup/verification is abstracted as a boolean
  predicate handed to `load` (the cryptography itself is external to the
  state machine being verified).
-/

namespace TankTactics

/-- First-match lookup in an association list (models `HashMap::get`). -/
def lookupA {κ α : Type} [DecidableEq κ] : List (κ × α) → κ → Option α
  | [], _ => none
  | kv :: rest, k => if kv.1 = k then some kv.2 else lookupA rest k

/-- Remove every binding of a key (models `HashMap::remove`). -/
def eraseA {κ α : Type} [DecidableEq κ] (k : κ) (l : List (κ × α)) : List (κ × α) :=
  l.filter (fun kv => decide (kv.1 ≠ k))

/-- Insert or overwrite a binding (models `HashMap::insert`). -/
def insertA {κ α : Type} [DecidableEq κ] (k : κ) (v : α) (l : List (κ × α)) : List (κ × α) :=
  (k, v) :: eraseA k l

/-- The keys of an association list are pairwise distinct. -/
def nodupKeys {κ α : Type} (l : List (κ × α)) : Prop :=
  (l.map Prod.fst).Nodup

instance {κ α : Type} [DecidableEq κ] (l : List (κ × α)) : Decidable (nodupKeys l) :=
  inferInstanceAs (Decidable (l.map Prod.fst).Nodup)

/-- Checked `u32` addition: `none` models the Rust overflow panic. -/
def addU32 (a b : Nat) : Option Nat :=
  if a + b < 2 ^ 32 then some (a + b) else none

/-- Checked `u32` subtraction: `none` models the Rust underflow panic. -/
def subU32 (a b : Nat) : Option Nat :=
  if b ≤ a then some (a - b) else none

/-- `u32::abs_diff`. -/
def absDiff (a b : Nat) : Nat :=
  max (a - b) (b - a)

/-- The seven move kinds of `MoveLineType`. -/
inductive MoveLineType : Type
  | Join
  | Drive
  | Shoot
  | Gift
  | Vote
  | HandleVotes
  | Upgrade
deriving DecidableEq

/-- The struct `MoveLine` (ids are `i32` in the source, modelled as `Int`;
`x`/`y` are `u32`, modelled as `Nat`). -/
structure MoveLine : Type where
  move_type : MoveLineType
  x : Option Nat
  y : Option Nat
  target : Option Int
  authorizer : Int
  signature : String
deriving DecidableEq

/-- The enum `Error` of the source (same constructor payloads). -/
inductive Error : Type
  | NotFound (what : String)
  | OutOfRange (what range : String)
  | Unautherized (player : Int)
  | MalformedMove
  | Other (msg : String)
deriving DecidableEq

/-- The enum `LevelRangeMap`. -/
inductive LevelRangeMap : Type
  | Linear
  | Array (table : List Nat)
deriving DecidableEq

/-- The struct `Player` (all numeric fields `u32` except the `i32` user id). -/
structure Player : Type where
  user : Int
  x : Nat
  y : Nat
  level : Nat
  points : Nat
  health : Nat
deriving DecidableEq

/-- The struct `Settings` (`max_level`/`max_players` are `i32`). -/
structure Settings : Type where
  seed : Nat
  width : Nat
  height : Nat
  health : Nat
  max_level : Int
  max_players : Int
  vote_threshold : Nat
  range : LevelRangeMap
deriving DecidableEq

/-- The struct `Game`.  `rand` is the abstracted ChaCha12 `next_u64` stream. -/
structure Game : Type where
  id : Int
  last_vote : Nat
  settings : Settings
  players : List (Int × Player)
  board : List ((Nat × Nat) × Int)
  votes : List (Int × Int)
  lines : List MoveLine
  rand : Nat → Nat

/-- `Game::new`: empty maps and chain; the keystream seeded from
`settings.seed` is supplied abstractly as `stream`. -/
def Game.new (id : Int) (settings : Settings) (stream : Nat → Nat) : Game where
  id := id
  last_vote := 0
  settings := settings
  players := []
  board := []
  votes := []
  lines := []
  rand := stream

/-- `Player::is_alive`: succeeds when `(health != 0) == alive`. -/
def Player.is_alive (p : Player) (alive : Bool) : Except Error Unit :=
  if decide (p.health ≠ 0) = alive then Except.ok ()
  else Except.error (Error.OutOfRange "Health" (if alive then "> 0" else " == 0"))

/-- `Player::has_points`: succeeds when `points != 0`. -/
def Player.has_points (p : Player) : Except Error Unit :=
  if p.points = 0 then Except.error (Error.OutOfRange "Points" "> 0") else Except.ok ()

/-- `Player::in_range`: Chebyshev distance to `(x, y)` at most `distance`. -/
def Player.in_range (p : Player) (x y distance : Nat) : Except Error Unit :=
  if max (absDiff p.x x) (absDiff p.y y) > distance then
    Except.error (Error.OutOfRange "Position" ("distance <= " ++ toString distance))
  else Except.ok ()

/-- `Player::upgradable`: fails when the `u32` level does not fit an `i32`
(`level ≥ 2^31`) or equals `max_level`. -/
def Player.upgradable (p : Player) (max_level : Int) : Except Error Unit :=
  if 2 ^ 31 ≤ p.level ∨ (p.level : Int) = max_level then
    Except.error (Error.OutOfRange "Level" ("< " ++ toString max_level))
  else Except.ok ()

/-- `LevelRangeMap::get_range`.  `Linear` computes the `u32` sum `level + 1`
(overflow panics, hence `addU32`); `Array` indexes `a[level]`, where an index
out of bounds is the Rust panic, modelled by `none`. -/
def LevelRangeMap.get_range : LevelRangeMap → Nat → Option Nat
  | .Linear, level => addU32 level 1
  | .Array a, level => a.get? level

/-- `str::parse::<u32>` over the character list of the string: an optional
leading `+`, then at least one ASCII digit, value below `2^32`. -/
def parseU32 (cs : List Char) : Option Nat :=
  let t := if cs.head? = some (Char.ofNat 43) then cs.tail else cs
  if t.isEmpty then none
  else if t.all Char.isDigit then
    let n := t.foldl (fun acc c => acc * 10 + (c.toNat - 48)) 0
    if n < 2 ^ 32 then some n else none
  else none

/-- `str::split('.')` over the character list (an accumulator of the current
piece, reversed). -/
def splitDot : List Char → List Char → List (List Char)
  | [], acc => [acc.reverse]
  | c :: rest, acc =>
    if c = Char.ofNat 46 then acc.reverse :: splitDot rest []
    else splitDot rest (c :: acc)

/-- `LevelRangeMap::from_str`: `"L"` is `Linear`; otherwise the text must start
with `A`, is split on `'.'`, the leading `A` (one ASCII byte) is stripped from
the first part, and every part must parse as a `u32`. -/
def LevelRangeMap.from_str (text : String) : Except Error LevelRangeMap :=
  if text = "L" then Except.ok LevelRangeMap.Linear
  else if text.data.head? = some (Char.ofNat 65) then
    match (match splitDot text.data [] with
           | [] => []
           | f :: rest => f.drop 1 :: rest).mapM parseU32 with
    | some vals => Except.ok (LevelRangeMap.Array vals)
    | none => Except.error Error.MalformedMove
  else Except.error (Error.NotFound "LevelRangeMap")

/-- `impl Display for LevelRangeMap`: `"L"`, or `"A"` followed by the values
joined with `','` and a trailing `'|'`. -/
def LevelRangeMap.display : LevelRangeMap → String
  | .Linear => "L"
  | .Array a => "A" ++ String.intercalate "," (a.map (fun n => toString n)) ++ "|"

/-- The spawn-search loop shared by `get_pos` and `get_pos_mut`: starting from
candidate `xy`, while the candidate is occupied draw `stream idx` (the next
`u64`), split it into 32-bit halves and reduce them modulo `w`/`h`.  Returns
the found cell together with the number of draws consumed; `none` models the
`% 0` panic when `w` or `h` is zero, or exhausting the `fuel` bound on loop
iterations (the Rust loop would simply keep running). -/
def findPosAux (w h : Nat) (board : List ((Nat × Nat) × Int)) (stream : Nat → Nat) :
    Nat → Nat × Nat → Nat → Option ((Nat × Nat) × Nat)
  | fuel, xy, idx =>
    if (lookupA board xy).isSome then
      match fuel with
      | 0 => none
      | fuel' + 1 =>
        if w = 0 ∨ h = 0 then none
        else
          let r := stream idx
          findPosAux w h board stream fuel' (r % 2 ^ 32 % w, r / 2 ^ 32 % 2 ^ 32 % h) (idx + 1)
    else some (xy, idx)

/-- `Game::get_pos`: runs the spawn search on a clone of the generator and
returns only the cell (the stream is not advanced). -/
def getPos (fuel : Nat) (g : Game) : Option (Nat × Nat) :=
  (findPosAux g.settings.width g.settings.height g.board g.rand fuel (0, 0) 0).map Prod.fst

/-- `Game::get_pos_mut`: runs the spawn search on the generator itself and
returns the cell together with the advanced stream. -/
def getPosMut (fuel : Nat) (g : Game) : Option ((Nat × Nat) × (Nat → Nat)) :=
  (findPosAux g.settings.width g.settings.height g.board g.rand fuel (0, 0) 0).map
    (fun r => (r.1, fun n => g.rand (r.2 + n)))

/-- Modelled from the spec: the spawn algorithm as claim C3 words it — the
first candidate examined is itself drawn from the stream, and every occupied
candidate triggers another draw. -/
def getPosSpecAux (w h : Nat) (board : List ((Nat × Nat) × Int)) (stream : Nat → Nat) :
    Nat → Nat → Option (Nat × Nat)
  | 0, _ => none
  | fuel + 1, idx =>
    let r := stream idx
    let cand := (r % 2 ^ 32 % w, r / 2 ^ 32 % 2 ^ 32 % h)
    if (lookupA board cand).isSome then getPosSpecAux w h board stream fuel (idx + 1)
    else some cand

/-- A position message `format!("({}, {})", pos.0, pos.1)`. -/
def posMsg (pos : Nat × Nat) : String :=
  "(" ++ toString pos.1 ++ ", " ++ toString pos.2 ++ ")"

/-- `Game::check`, translated arm by arm with the source's evaluation order.
The outer `Option` records a panic inside validation (the `Array` range-table
index, or the spawn preview running out of fuel); `some` carries the `Result`
the Rust function returns. -/
def check (fuel : Nat) (g : Game) (line : MoveLine) : Option (Except Error Unit) :=
  match line.move_type with
  | .Join =>
    if (lookupA g.players line.authorizer).isSome then
      some (Except.error (Error.Unautherized line.authorizer))
    else
      match getPos fuel g with
      | none => none
      | some pos =>
        match line.x with
        | none => some (Except.error Error.MalformedMove)
        | some x =>
          if x ≠ pos.1 then some (Except.error (Error.OutOfRange "Position" (posMsg pos)))
          else
            match line.y with
            | none => some (Except.error Error.MalformedMove)
            | some y =>
              if y ≠ pos.2 then some (Except.error (Error.OutOfRange "Position" (posMsg pos)))
              else some (Except.ok ())
  | .Drive =>
    match line.x with
    | none => some (Except.error Error.MalformedMove)
    | some x =>
      match line.y with
      | none => some (Except.error Error.MalformedMove)
      | some y =>
        match lookupA g.players line.authorizer with
        | none => some (Except.error (Error.NotFound ("player (" ++ toString line.authorizer ++ ")")))
        | some player =>
          match player.is_alive true with
          | .error e => some (Except.error e)
          | .ok () =>
            match player.has_points with
            | .error e => some (Except.error e)
            | .ok () =>
              if (lookupA g.board (x, y)).isSome then
                some (Except.error (Error.NotFound "free tile"))
              else
                match player.in_range x y 1 with
                | .error e => some (Except.error e)
                | .ok () => some (Except.ok ())
  | .Shoot | .Gift =>
    match line.target with
    | none => some (Except.error Error.MalformedMove)
    | some target =>
      match lookupA g.players target with
      | none => some (Except.error (Error.NotFound ("player (" ++ toString target ++ ")")))
      | some t =>
        match lookupA g.players line.authorizer with
        | none => some (Except.error (Error.NotFound ("player (" ++ toString line.authorizer ++ ")")))
        | some p =>
          match t.is_alive true with
          | .error e => some (Except.error e)
          | .ok () =>
            match p.is_alive true with
            | .error e => some (Except.error e)
            | .ok () =>
              match p.has_points with
              | .error e => some (Except.error e)
              | .ok () =>
                match g.settings.range.get_range p.level with
                | none => none
                | some r =>
                  match p.in_range t.x t.y r with
                  | .error e => some (Except.error e)
                  | .ok () => some (Except.ok ())
  | .Vote =>
    match line.target with
    | none => some (Except.error Error.MalformedMove)
    | some target =>
      match lookupA g.players target with
      | none => some (Except.error (Error.NotFound ("player (" ++ toString target ++ ")")))
      | some t =>
        match lookupA g.players line.authorizer with
        | none => some (Except.error (Error.NotFound ("player (" ++ toString line.authorizer ++ ")")))
        | some p =>
          match t.is_alive true with
          | .error e => some (Except.error e)
          | .ok () =>
            match p.is_alive false with
            | .error e => some (Except.error e)
            | .ok () => some (Except.ok ())
  | .HandleVotes => some (Except.ok ())
  | .Upgrade =>
    match lookupA g.players line.authorizer with
    | none => some (Except.error (Error.NotFound ("player (" ++ toString line.authorizer ++ ")")))
    | some p =>
      match p.is_alive true with
      | .error e => some (Except.error e)
      | .ok () =>
        match p.upgradable g.settings.max_level with
        | .error e => some (Except.error e)
        | .ok () =>
          match p.has_points with
          | .error e => some (Except.error e)
          | .ok () => some (Except.ok ())

/-- The universal point grant of `HandleVotes`:
`self.players.iter_mut().for_each(|(_, p)| p.points += 1)`. -/
def bumpAll : List (Int × Player) → Option (List (Int × Player))
  | [] => some []
  | (k, p) :: rest =>
    match addU32 p.points 1 with
    | some pts =>
      match bumpAll rest with
      | some r => some ((k, { p with points := pts }) :: r)
      | none => none
    | none => none

/-- One step of the vote fold: `*x.entry(y).or_default() += 1`. -/
def bumpCount (acc : List (Int × Nat)) (y : Int) : List (Int × Nat) :=
  insertA y ((lookupA acc y).getD 0 + 1) acc

/-- The vote fold of `HandleVotes`: counts votes per target. -/
def tally (votes : List (Int × Int)) : List (Int × Nat) :=
  votes.foldl (fun acc kv => bumpCount acc kv.2) []

/-- The bonus loop of `HandleVotes`: each listed target that exists and is
alive gains one point (checked `u32` addition). -/
def applyBonus : List Int → List (Int × Player) → Option (List (Int × Player))
  | [], ps => some ps
  | t :: rest, ps =>
    match lookupA ps t with
    | some p =>
      if p.health ≠ 0 then
        match addU32 p.points 1 with
        | some pts => applyBonus rest (insertA t { p with points := pts } ps)
        | none => none
      else applyBonus rest ps
    | none => applyBonus rest ps

/-- `Game::handle_unchecked`, translated arm by arm in the source's mutation
order.  `none` models a panic (a failed `unwrap`, a `u32` overflow or
underflow) or the spawn loop exceeding its fuel. -/
def handleUnchecked (fuel : Nat) (g : Game) (line : MoveLine) : Option Game :=
  match line.move_type with
  | .Join => do
    let pr ← getPosMut fuel g
    let xy := pr.1
    let p : Player :=
      { user := line.authorizer, x := xy.1, y := xy.2, level := 0, points := 1,
        health := g.settings.health }
    some { g with rand := pr.2,
                  players := insertA line.authorizer p g.players,
                  board := insertA xy line.authorizer g.board,
                  lines := g.lines ++ [line] }
  | .Drive => do
    let x ← line.x
    let y ← line.y
    let player ← lookupA g.players line.authorizer
    let pts ← subU32 player.points 1
    let board1 := eraseA (player.x, player.y) g.board
    let player' := { player with points := pts, x := x, y := y }
    some { g with players := insertA line.authorizer player' g.players,
                  board := insertA (x, y) line.authorizer board1,
                  lines := g.lines ++ [line] }
  | .Shoot => do
    let tid ← line.target
    let t ← lookupA g.players tid
    let h ← subU32 t.health 1
    let add := if h = 0 then t.points else 0
    let t' := { t with health := h, points := if h = 0 then 0 else t.points }
    let players1 := insertA tid t' g.players
    let p ← lookupA players1 line.authorizer
    let pts ← subU32 p.points 1
    let pts2 ← addU32 pts add
    some { g with players := insertA line.authorizer { p with points := pts2 } players1,
                  lines := g.lines ++ [line] }
  | .Gift => do
    let tid ← line.target
    let p ← lookupA g.players line.authorizer
    let pts ← subU32 p.points 1
    let players1 := insertA line.authorizer { p with points := pts } g.players
    let t ← lookupA players1 tid
    let tpts ← addU32 t.points 1
    some { g with players := insertA tid { t with points := tpts } players1,
                  lines := g.lines ++ [line] }
  | .Vote => do
    let tid ← line.target
    some { g with votes := insertA line.authorizer tid g.votes,
                  lines := g.lines ++ [line] }
  | .HandleVotes => do
    let ps ← bumpAll g.players
    let counts := tally g.votes
    let winners := (counts.filter (fun kv => decide (g.settings.vote_threshold ≤ kv.2))).map Prod.fst
    let ps' ← applyBonus winners ps
    some { g with players := ps', votes := [], lines := g.lines ++ [line] }
  | .Upgrade => do
    let p ← lookupA g.players line.authorizer
    let lv ← addU32 p.level 1
    some { g with players := insertA line.authorizer { p with level := lv } g.players,
                  lines := g.lines ++ [line] }

/-- `Game::load`.  `verify` abstracts the whole signature step (parsing the
signature, looking up the authorizer's key, ECDSA verification of the
canonical encoding chained with the last committed signature, which the Rust
code reads from `self.lines`).  The result pairs the returned `Result` with
the final state; `none` models a panic inside validation or commit. -/
def load (verify : MoveLine → List MoveLine → Bool) (fuel : Nat) (g : Game)
    (line : MoveLine) : Option (Except Error Unit × Game) :=
  if verify line g.lines then
    match check fuel g line with
    | none => none
    | some (.error e) => some (Except.error e, g)
    | some (.ok ()) => (handleUnchecked fuel g line).map (fun g' => (Except.ok (), g'))
  else some (Except.error (Error.Other "Invalid signature."), g)

/-- Game states reachable from a fresh `Game::new` by committing validated
moves through `load`. -/
inductive Reachable : Game → Prop
  | base (id : Int) (settings : Settings) (stream : Nat → Nat) :
      Reachable (Game.new id settings stream)
  | step {g g' : Game} (line : MoveLine) (verify : MoveLine → List MoveLine → Bool)
      (fuel : Nat) :
      Reachable g → load verify fuel g line = some (Except.ok (), g') → Reachable g'

/-- The board/player consistency invariant of claim C8: the board maps every
player's position to that player's id, every board entry comes from such a
player, and positions are injective over players. -/
def boardInv (g : Game) : Prop :=
  (∀ i p, lookupA g.players i = some p → lookupA g.board (p.x, p.y) = some i) ∧
  (∀ pos i, lookupA g.board pos = some i →
    ∃ p, lookupA g.players i = some p ∧ p.x = pos.1 ∧ p.y = pos.2) ∧
  (∀ i j p q, lookupA g.players i = some p → lookupA g.players j = some q →
    p.x = q.x → p.y = q.y → i = j)

/-- The number of voters whose recorded vote names target `t` (with a
well-formed vote map these voters are pairwise distinct). -/
def voteCount (votes : List (Int × Int)) (t : Int) : Nat :=
  (votes.filter (fun kv => decide (kv.2 = t))).length

/-- The defaults of `impl Default for Settings`. -/
def defaultSettings : Settings where
  seed := 0
  width := 5
  height := 5
  max_level := 2
  range := LevelRangeMap.Linear
  health := 3
  max_players := 10
  vote_threshold := 3

/-- A signature verifier that rejects everything. -/
def vfalse : MoveLine → List MoveLine → Bool := fun _ _ => false

/-- A signature verifier that accepts everything. -/
def vtrue : MoveLine → List MoveLine → Bool := fun _ _ => true

/-- The all-zero keystream. -/
def zeroStream : Nat → Nat := fun _ => 0

/-- A fresh game with default settings over the all-zero keystream. -/
def gFresh : Game := Game.new 0 defaultSettings zeroStream

/-- A game with a living, pointed player 1 and a dead player 2 (fixture for
claim C1's counterexample). -/
def gC1 : Game :=
  { gFresh with
    players := [(1, ⟨1, 0, 0, 0, 1, 1⟩), (2, ⟨2, 1, 1, 0, 0, 0⟩)],
    board := [((0, 0), 1), ((1, 1), 2)] }

/-- A Gift from player 1 to the dead player 2. -/
def lineC1 : MoveLine := ⟨.Gift, none, none, some 2, 1, ""⟩

/-- A single player with one point and one health (fixture for claim C2). -/
def gC2 : Game :=
  { gFresh with players := [(1, ⟨1, 0, 0, 0, 1, 1⟩)], board := [((0, 0), 1)] }

/-- Player 1 shoots themself. -/
def lineC2 : MoveLine := ⟨.Shoot, none, none, some 1, 1, ""⟩

/-- A fresh game whose keystream constantly yields `2^32 + 1`, so the first
drawn candidate would be `(1, 1)` (fixture for claim C3). -/
def gC3 : Game := Game.new 0 defaultSettings (fun _ => 2 ^ 32 + 1)

/-- A game whose range policy is the one-entry table `Array [1]`, with a
level-1 authorizer (fixture for claim C5). -/
def gC5 : Game :=
  { gFresh with
    settings := { defaultSettings with range := LevelRangeMap.Array [1] },
    players := [(1, ⟨1, 0, 0, 1, 1, 1⟩), (2, ⟨2, 1, 1, 0, 1, 1⟩)],
    board := [((0, 0), 1), ((1, 1), 2)] }

/-- Player 1 (level 1, table length 1) shoots player 2. -/
def lineC5 : MoveLine := ⟨.Shoot, none, none, some 2, 1, ""⟩

/-- A single player with two points and one health (fixture for claim C6's
counterexample: a fatal self-shot). -/
def gC6 : Game :=
  { gFresh with players := [(1, ⟨1, 0, 0, 0, 2, 1⟩)], board := [((0, 0), 1)] }

/-- Player 1 shoots themself fatally. -/
def lineC6 : MoveLine := ⟨.Shoot, none, none, some 1, 1, ""⟩

/-- Two players; player 2 has one health left (fixture for claim C6's
witness: a fatal shot on a distinct target). -/
def gC6w : Game :=
  { gFresh with
    players := [(1, ⟨1, 0, 0, 0, 3, 5⟩), (2, ⟨2, 1, 1, 0, 4, 1⟩)],
    board := [((0, 0), 1), ((1, 1), 2)] }

/-- Player 1 shoots player 2. -/
def lineC6w : MoveLine := ⟨.Shoot, none, none, some 2, 1, ""⟩

/-- Vote threshold 1, a dead player 1 who voted for the living player 2
(fixture for claim C7's witness). -/
def gC7 : Game :=
  { gFresh with
    settings := { defaultSettings with vote_threshold := 1 },
    players := [(1, ⟨1, 0, 0, 0, 0, 0⟩), (2, ⟨2, 1, 1, 0, 3, 3⟩)],
    board := [((0, 0), 1), ((1, 1), 2)],
    votes := [(1, 2)] }

/-- The HandleVotes move for the C7 fixture. -/
def lineC7 : MoveLine := ⟨.HandleVotes, none, none, none, 1, ""⟩

/-- A HandleVotes move line used as an arbitrary move for claim C9's witness. -/
def lineC9 : MoveLine := ⟨.HandleVotes, none, none, none, 1, ""⟩

/-- A single level-0 player with a point, below `max_level = 2` (fixture for
claim C10's witness). -/
def gC10 : Game :=
  { gFresh with players := [(1, ⟨1, 0, 0, 0, 1, 3⟩)], board := [((0, 0), 1)] }

/-- Player 1 upgrades. -/
def lineC10 : MoveLine := ⟨.Upgrade, none, none, none, 1, ""⟩

/-- The state the C7 fixture commits to: everyone gained a point, the living
vote target gained two, the vote map is cleared. -/
def gC7' : Game :=
  { gC7 with
    players := [(2, ⟨2, 1, 1, 0, 5, 3⟩), (1, ⟨1, 0, 0, 0, 1, 0⟩)],
    votes := [],
    lines := [lineC7] }

/-- Two player maps list the same ids at the same positions (only
non-positional fields may differ). -/
def posPreserved (ps ps' : List (Int × Player)) : Prop :=
  ∀ i, (lookupA ps' i).map (fun p => (p.x, p.y)) =
    (lookupA ps i).map (fun p => (p.x, p.y))

/-! ### Association-list lemmas -/

theorem eraseA_cons {κ α : Type} [DecidableEq κ] (k : κ) (kv : κ × α) (l : List (κ × α)) :
    eraseA k (kv :: l) = if kv.1 = k then eraseA k l else kv :: eraseA k l := by
  by_cases h : kv.1 = k <;> simp [eraseA, List.filter_cons, h]

theorem lookupA_eraseA_self {κ α : Type} [DecidableEq κ] (k : κ) (l : List (κ × α)) :
    lookupA (eraseA k l) k = none := by
  induction l with
  | nil => rfl
  | cons kv rest ih =>
    rw [eraseA_cons]
    by_cases h : kv.1 = k
    · simpa [h] using ih
    · simpa [lookupA, h] using ih

theorem lookupA_eraseA_ne {κ α : Type} [DecidableEq κ] {k j : κ} (l : List (κ × α))
    (h : j ≠ k) : lookupA (eraseA k l) j = lookupA l j := by
  induction l with
  | nil => rfl
  | cons kv rest ih =>
    rw [eraseA_cons]
    by_cases hk : kv.1 = k
    · have hkj : k ≠ j := fun e => h e.symm
      simp [lookupA, hk, hkj, ih]
    · by_cases hj : kv.1 = j <;> simp [lookupA, hk, hj, ih, h]

theorem lookupA_insertA_self {κ α : Type} [DecidableEq κ] (k : κ) (v : α) (l : List (κ × α)) :
    lookupA (insertA k v l) k = some v := by
  simp [insertA, lookupA]

theorem lookupA_insertA_ne {κ α : Type} [DecidableEq κ] {k j : κ} (v : α) (l : List (κ × α))
    (h : j ≠ k) : lookupA (insertA k v l) j = lookupA l j := by
  have : k ≠ j := fun e => h e.symm
  simp [insertA, lookupA, this, lookupA_eraseA_ne l h]

theorem lookupA_eraseA_some {κ α : Type} [DecidableEq κ] {k j : κ} {v : α} {l : List (κ × α)}
    (h : lookupA (eraseA k l) j = some v) : j ≠ k ∧ lookupA l j = some v := by
  by_cases hj : j = k
  · subst hj; rw [lookupA_eraseA_self] at h; cases h
  · exact ⟨hj, by rwa [lookupA_eraseA_ne l hj] at h⟩

theorem mem_of_lookupA_eq {κ α : Type} [DecidableEq κ] {l : List (κ × α)} {k : κ} {v : α}
    (h : lookupA l k = some v) : (k, v) ∈ l := by
  induction l with
  | nil => cases h
  | cons kv rest ih =>
    cases kv with
    | mk a b =>
      unfold lookupA at h
      by_cases hk : a = k
      · subst hk
        simp at h
        subst h
        exact List.mem_cons_self _ _
      · simp [hk] at h
        exact List.mem_cons_of_mem _ (ih h)

theorem lookupA_eq_of_mem {κ α : Type} [DecidableEq κ] {l : List (κ × α)} {k : κ} {v : α}
    (hnd : nodupKeys l) (h : (k, v) ∈ l) : lookupA l k = some v := by
  induction l with
  | nil => cases h
  | cons kv rest ih =>
    rcases List.mem_cons.mp h with h1 | h2
    · subst h1; simp [lookupA]
    · have hk : kv.1 ≠ k := by
        intro e
        have : k ∈ rest.map Prod.fst := List.mem_map.mpr ⟨(k, v), h2, rfl⟩
        have := (List.nodup_cons.mp hnd).1
        rw [e] at this
        exact this ‹k ∈ rest.map Prod.fst›
      have hnd' : nodupKeys rest := (List.nodup_cons.mp hnd).2
      simp [lookupA, hk, ih hnd' h2]

theorem nodupKeys_eraseA {κ α : Type} [DecidableEq κ] (k : κ) {l : List (κ × α)}
    (h : nodupKeys l) : nodupKeys (eraseA k l) := by
  have hsub : List.Sublist ((eraseA k l).map Prod.fst) (l.map Prod.fst) :=
    List.Sublist.map _ (List.filter_sublist l)
  exact List.Nodup.sublist hsub h

theorem not_mem_keys_eraseA {κ α : Type} [DecidableEq κ] (k : κ) (l : List (κ × α)) :
    k ∉ (eraseA k l).map Prod.fst := by
  intro hmem
  rcases List.mem_map.mp hmem with ⟨kv, hkv, hfst⟩
  have := List.of_mem_filter hkv
  simp at this
  exact this hfst

theorem nodupKeys_insertA {κ α : Type} [DecidableEq κ] (k : κ) (v : α) {l : List (κ × α)}
    (h : nodupKeys l) : nodupKeys (insertA k v l) := by
  unfold nodupKeys insertA
  rw [List.map_cons]
  exact List.nodup_cons.mpr ⟨not_mem_keys_eraseA k l, nodupKeys_eraseA k h⟩

/-! ### Spawn-search lemmas -/

theorem findPosAux_unoccupied {w h : Nat} {board : List ((Nat × Nat) × Int)}
    {stream : Nat → Nat} :
    ∀ (fuel : Nat) (xy : Nat × Nat) (idx : Nat) (res : (Nat × Nat) × Nat),
      findPosAux w h board stream fuel xy idx = some res → lookupA board res.1 = none := by
  intro fuel
  induction fuel with
  | zero =>
    intro xy idx res hres
    cases hlk : lookupA board xy with
    | none =>
      rw [findPosAux] at hres
      simp [hlk] at hres
      rw [← hres]
      exact hlk
    | some v =>
      rw [findPosAux] at hres
      simp [hlk] at hres
  | succ fuel ih =>
    intro xy idx res hres
    cases hlk : lookupA board xy with
    | none =>
      rw [findPosAux] at hres
      simp [hlk] at hres
      rw [← hres]
      exact hlk
    | some v =>
      rw [findPosAux] at hres
      simp only [hlk, Option.isSome_some, if_true] at hres
      by_cases hz : w = 0 ∨ h = 0
      · simp [hz] at hres
      · simp only [hz, if_false] at hres
        exact ih _ _ _ hres

theorem findPosAux_of_free {w h : Nat} {board : List ((Nat × Nat) × Int)}
    {stream : Nat → Nat} (fuel : Nat) (xy : Nat × Nat) (idx : Nat)
    (hfree : lookupA board xy = none) :
    findPosAux w h board stream fuel xy idx = some (xy, idx) := by
  cases fuel <;> · rw [findPosAux]; simp [hfree]

/-! ### Claim theorems -/

/-- Claim C2 is a code bug: the state `gC2` (one player at `(0, 0)` with one
point and one health) together with the self-Shoot `lineC2` passes `check`,
yet `handle_unchecked` hits the `u32` underflow panic `player.points -= 1`
(the kill zeroed the shooter's own point stockpile first), so the commit is
neither completed nor rejected. -/
theorem c2_validated_self_shot_underflows :
    check 0 gC2 lineC2 = some (Except.ok ()) ∧ handleUnchecked 0 gC2 lineC2 = none :=
  ⟨rfl, rfl⟩

/-- Claim C4 is a code bug: the serializer writes `Array [1]` as `"A1|"`
(comma-joined, `'|'`-terminated) but the parser splits on `'.'` and requires
every piece to be numeric, so the policy's own output fails to re-parse. -/
theorem c4_array_roundtrip_fails :
    LevelRangeMap.display (LevelRangeMap.Array [1]) = "A1|" ∧
    LevelRangeMap.from_str (LevelRangeMap.display (LevelRangeMap.Array [1])) =
      Except.error Error.MalformedMove :=
  ⟨rfl, rfl⟩

/-- Claim C5 is a code bug: `get_range` on `Array [1]` at level `1` is the
out-of-bounds slice index `a[1]`, a panic (modelled by `none`), and `check` of
an otherwise fully valid Shoot therefore panics instead of returning a
validation error (`check = none`, not `some (Except.error _)`). -/
theorem c5_array_range_panics :
    LevelRangeMap.get_range (LevelRangeMap.Array [1]) 1 = none ∧
    check 0 gC5 lineC5 = none :=
  ⟨rfl, rfl⟩

/-- Claim C1 is refuted: in `gC1` the Gift target (player 2) exists and the
authorizer (player 1) is alive with a point, so the claim says validation
succeeds; but `check` shares the Shoot arm and rejects the dead target. -/
theorem c1_counterexample :
    lookupA gC1.players 2 = some ⟨2, 1, 1, 0, 0, 0⟩ ∧
    lookupA gC1.players 1 = some ⟨1, 0, 0, 0, 1, 1⟩ ∧
    check 0 gC1 lineC1 = some (Except.error (Error.OutOfRange "Health" "> 0")) :=
  ⟨rfl, rfl, rfl⟩

/-- Claim C3 is refuted: on the empty board the first candidate `get_pos`
examines is the fixed cell `(0, 0)` and no value is drawn from the stream,
whereas the claimed algorithm draws first and would return `(1, 1)` under
`gC3`'s stream. -/
theorem c3_counterexample :
    gC3.board = [] ∧ gC3.settings.width = 5 ∧ gC3.settings.height = 5 ∧
    getPos 10 gC3 = some (0, 0) ∧
    getPosSpecAux 5 5 gC3.board gC3.rand 10 0 = some (1, 1) ∧
    (some ((0 : Nat), (0 : Nat)) ≠ some ((1 : Nat), (1 : Nat))) :=
  ⟨rfl, rfl, rfl, rfl, by decide, by decide⟩

/-- Claim C3 (amended): the spawn search of `get_pos`/`get_pos_mut` starts
from the fixed candidate `(0, 0)` — so on a board with `(0, 0)` free it
returns `(0, 0)` without drawing; it draws from the stream only while the
current candidate is occupied, and any returned cell is unoccupied; preview
and consume find the same cell. -/
theorem c3_spawn_amended (fuel : Nat) (g : Game) :
    (lookupA g.board (0, 0) = none → getPos fuel g = some (0, 0)) ∧
    (∀ pos, getPos fuel g = some pos → lookupA g.board pos = none) ∧
    (∀ pos r', getPosMut fuel g = some (pos, r') → getPos fuel g = some pos) := by
  refine ⟨?_, ?_, ?_⟩
  · intro hfree
    unfold getPos
    rw [findPosAux_of_free fuel (0, 0) 0 hfree]
    rfl
  · intro pos hpos
    unfold getPos at hpos
    cases hres : findPosAux g.settings.width g.settings.height g.board g.rand fuel (0, 0) 0 with
    | none => rw [hres] at hpos; cases hpos
    | some res =>
      rw [hres] at hpos
      simp at hpos
      have := findPosAux_unoccupied fuel (0, 0) 0 res hres
      rwa [hpos] at this
  · intro pos r' hmut
    unfold getPosMut at hmut
    unfold getPos
    cases hres : findPosAux g.settings.width g.settings.height g.board g.rand fuel (0, 0) 0 with
    | none => rw [hres] at hmut; cases hmut
    | some res =>
      rw [hres] at hmut
      simp at hmut ⊢
      exact hmut.1

/-- Witness for the amended claim C3 at the concrete game `gC3`. -/
theorem c3_spawn_amended_witness :
    lookupA gC3.board (0, 0) = none ∧ getPos 10 gC3 = some (0, 0) :=
  ⟨rfl, (c3_spawn_amended 10 gC3).1 rfl⟩

/-- Claim C9: whenever `load` returns an error — the signature step fails or
`check` rejects the move — the game it returns is exactly the game it was
given: players, board, votes, chain, settings and the RNG stream included. -/
theorem c9_load_error_preserves_state (verify : MoveLine → List MoveLine → Bool)
    (fuel : Nat) (g : Game) (line : MoveLine) (e : Error) (g' : Game)
    (h : load verify fuel g line = some (Except.error e, g')) : g' = g := by
  unfold load at h
  by_cases hv : verify line g.lines
  · rw [if_pos hv] at h
    cases hc : check fuel g line with
    | none => rw [hc] at h; cases h
    | some res =>
      rw [hc] at h
      match res with
      | .error e' => simp at h; exact h.2.symm
      | .ok () => simp at h
  · rw [if_neg hv] at h
    simp at h
    exact h.2.symm

/-- Witness for claim C9: a rejected signature leaves the fresh game intact. -/
theorem c9_witness :
    load vfalse 0 gFresh lineC9 =
      some (Except.error (Error.Other "Invalid signature."), gFresh) ∧
    gFresh = gFresh :=
  ⟨rfl, c9_load_error_preserves_state vfalse 0 gFresh lineC9
    (Error.Other "Invalid signature.") gFresh rfl⟩

/-! ### Inversion of `check` -/

theorem check_shoot_ok_points {fuel : Nat} {g : Game} {tid auth : Int}
    {xo yo : Option Nat} {sig : String} {p : Player}
    (hp : lookupA g.players auth = some p)
    (h : check fuel g ⟨.Shoot, xo, yo, some tid, auth, sig⟩ = some (Except.ok ())) :
    p.points ≠ 0 := by
  cases ht : lookupA g.players tid with
  | none => simp [check, ht] at h
  | some t =>
    by_cases hth : t.health = 0
    · simp [check, ht, hp, Player.is_alive, hth] at h
    · by_cases hph : p.health = 0
      · simp [check, ht, hp, Player.is_alive, hth, hph] at h
      · by_cases hpp : p.points = 0
        · simp [check, ht, hp, Player.is_alive, Player.has_points, hth, hph, hpp] at h
        · exact hpp

theorem check_upgrade_ok_facts {fuel : Nat} {g : Game} {auth : Int}
    {xo yo : Option Nat} {tgt : Option Int} {sig : String} {p : Player}
    (hp : lookupA g.players auth = some p)
    (h : check fuel g ⟨.Upgrade, xo, yo, tgt, auth, sig⟩ = some (Except.ok ())) :
    p.health ≠ 0 ∧ p.level < 2 ^ 31 ∧ p.points ≠ 0 := by
  simp only [check, hp] at h
  cases ha : p.is_alive true with
  | error e => simp [ha] at h
  | ok u =>
    cases u
    simp only [ha] at h
    cases hu : p.upgradable g.settings.max_level with
    | error e => simp [hu] at h
    | ok u2 =>
      cases u2
      simp only [hu] at h
      cases hpt : p.has_points with
      | error e => simp [hpt] at h
      | ok u3 =>
        unfold Player.is_alive at ha
        unfold Player.upgradable at hu
        unfold Player.has_points at hpt
        simp at ha hu hpt
        refine ⟨ha, ?_, hpt⟩
        have := hu.1
        omega

/-! ### Claim C1 (amended) -/

/-- Claim C1 (amended): `check` on a Gift succeeds exactly when the target
field is present and the target exists **and is alive**, the authorizer exists,
is alive, has at least one point, **and** the target lies within
`range_policy(authorizer.level)` — the same conditions as Shoot, because the
source shares one match arm between the two kinds. -/
theorem c1_gift_check_iff (fuel : Nat) (g : Game) (tid auth : Int)
    (xo yo : Option Nat) (sig : String) :
    check fuel g ⟨.Gift, xo, yo, some tid, auth, sig⟩ = some (Except.ok ()) ↔
      ∃ t p r, lookupA g.players tid = some t ∧ lookupA g.players auth = some p ∧
        t.health ≠ 0 ∧ p.health ≠ 0 ∧ p.points ≠ 0 ∧
        g.settings.range.get_range p.level = some r ∧
        max (absDiff p.x t.x) (absDiff p.y t.y) ≤ r := by
  constructor
  · intro h
    cases ht : lookupA g.players tid with
    | none => simp [check, ht] at h
    | some t =>
      cases hp : lookupA g.players auth with
      | none => simp [check, ht, hp] at h
      | some p =>
        by_cases hth : t.health = 0
        · simp [check, ht, hp, Player.is_alive, hth] at h
        · by_cases hph : p.health = 0
          · simp [check, ht, hp, Player.is_alive, hth, hph] at h
          · by_cases hpp : p.points = 0
            · simp [check, ht, hp, Player.is_alive, Player.has_points, hth, hph, hpp] at h
            · cases hr : g.settings.range.get_range p.level with
              | none =>
                simp [check, ht, hp, Player.is_alive, Player.has_points,
                  hth, hph, hpp, hr] at h
              | some r =>
                by_cases hir : max (absDiff p.x t.x) (absDiff p.y t.y) > r
                · simp [check, ht, hp, Player.is_alive, Player.has_points,
                    Player.in_range, hth, hph, hpp, hr, hir] at h
                · exact ⟨t, p, r, rfl, rfl, hth, hph, hpp, hr, le_of_not_lt hir⟩
  · rintro ⟨t, p, r, ht, hp, hth, hph, hpp, hr, hd⟩
    simp [check, ht, hp, Player.is_alive, Player.has_points, Player.in_range,
      hth, hph, hpp, hr, not_lt.mpr hd]

/-! ### Claims C6 and C10 -/

/-- Claim C6 is refuted as stated: in `gC6` player 1's validated Shoot on
themself is fatal (their own health is 1), yet the commit produces no
post-state at all — the point transfer underflows — so the claimed equations
about the state afterwards do not hold. -/
theorem c6_counterexample :
    check 0 gC6 lineC6 = some (Except.ok ()) ∧
    lookupA gC6.players 1 = some ⟨1, 0, 0, 0, 2, 1⟩ ∧
    handleUnchecked 0 gC6 lineC6 = none :=
  ⟨rfl, rfl, rfl⟩

/-- Claim C6 (amended): for a validated fatal Shoot whose target is distinct
from the authorizer (and whose stolen points fit in a `u32`), the commit
succeeds, the authorizer ends with `points_before - 1 + target.points_before`
points and the target ends with zero points (and zero health). -/
theorem c6_fatal_shot_conservation (fuel : Nat) (g : Game) (tid auth : Int)
    (xo yo : Option Nat) (sig : String) (t p : Player)
    (hne : tid ≠ auth)
    (ht : lookupA g.players tid = some t)
    (hp : lookupA g.players auth = some p)
    (hfatal : t.health = 1)
    (hchk : check fuel g ⟨.Shoot, xo, yo, some tid, auth, sig⟩ = some (Except.ok ()))
    (hfit : p.points + t.points ≤ 2 ^ 32) :
    (handleUnchecked fuel g ⟨.Shoot, xo, yo, some tid, auth, sig⟩).map
        (fun g' => (lookupA g'.players auth, lookupA g'.players tid)) =
      some (some { p with points := p.points - 1 + t.points },
            some { t with health := 0, points := 0 }) := by
  have hpp : p.points ≠ 0 := check_shoot_ok_points hp hchk
  have hane : auth ≠ tid := fun e => hne e.symm
  have h1 : subU32 t.health 1 = some 0 := by
    rw [hfatal]
    rfl
  have h2 : subU32 p.points 1 = some (p.points - 1) := by
    unfold subU32
    rw [if_pos (by omega)]
  have h3 : addU32 (p.points - 1) t.points = some (p.points - 1 + t.points) := by
    unfold addU32
    rw [if_pos (by omega)]
  simp [handleUnchecked, ht, h1, h2, h3, hp, lookupA_insertA_self,
    lookupA_insertA_ne _ _ hane, lookupA_insertA_ne _ _ hne]

/-- Witness for the amended claim C6 at the fixture `gC6w` (player 1, three
points, fatally shoots player 2, who has four points and one health). -/
theorem c6_fatal_shot_conservation_witness :
    (check 0 gC6w lineC6w = some (Except.ok ()) ∧
     lookupA gC6w.players 2 = some ⟨2, 1, 1, 0, 4, 1⟩ ∧
     lookupA gC6w.players 1 = some ⟨1, 0, 0, 0, 3, 5⟩) ∧
    (handleUnchecked 0 gC6w lineC6w).map
        (fun g' => (lookupA g'.players 1, lookupA g'.players 2)) =
      some (some ⟨1, 0, 0, 0, 6, 5⟩, some ⟨2, 1, 1, 0, 0, 0⟩) :=
  ⟨⟨rfl, rfl, rfl⟩,
    c6_fatal_shot_conservation 0 gC6w 2 1 none none "" ⟨2, 1, 1, 0, 4, 1⟩ ⟨1, 0, 0, 0, 3, 5⟩
      (by decide) rfl rfl rfl rfl (by decide)⟩

/-- Claim C10: a validated Upgrade commit bumps the authorizer's level by one
and changes nothing else about the game state: the authorizer keeps their
points (the required point is not spent), health and position, every other
player's entry, the board, the votes, the settings and the RNG stream are
unchanged. -/
theorem c10_upgrade_frame (fuel : Nat) (g : Game) (auth : Int)
    (xo yo : Option Nat) (tgt : Option Int) (sig : String) (p : Player) (j : Int)
    (hp : lookupA g.players auth = some p)
    (hchk : check fuel g ⟨.Upgrade, xo, yo, tgt, auth, sig⟩ = some (Except.ok ()))
    (hj : j ≠ auth) :
    (handleUnchecked fuel g ⟨.Upgrade, xo, yo, tgt, auth, sig⟩).map
        (fun g' => (lookupA g'.players auth, lookupA g'.players j,
                    g'.board, g'.votes, g'.rand, g'.settings)) =
      some (some { p with level := p.level + 1 }, lookupA g.players j,
            g.board, g.votes, g.rand, g.settings) := by
  obtain ⟨-, hlv, -⟩ := check_upgrade_ok_facts hp hchk
  have hadd : addU32 p.level 1 = some (p.level + 1) := by
    unfold addU32
    rw [if_pos (by omega)]
  simp [handleUnchecked, hp, hadd, lookupA_insertA_self, lookupA_insertA_ne _ _ hj]

/-- Witness for claim C10 at the fixture `gC10` (a level-0 player with one
point and `max_level = 2`), checked against the absent player id 5. -/
theorem c10_upgrade_frame_witness :
    (lookupA gC10.players 1 = some ⟨1, 0, 0, 0, 1, 3⟩ ∧
     check 0 gC10 lineC10 = some (Except.ok ()) ∧ (5 : Int) ≠ 1) ∧
    (handleUnchecked 0 gC10 lineC10).map
        (fun g' => (lookupA g'.players 1, lookupA g'.players 5,
                    g'.board, g'.votes, g'.rand, g'.settings)) =
      some (some ⟨1, 0, 0, 1, 1, 3⟩, none,
            gC10.board, gC10.votes, gC10.rand, gC10.settings) :=
  ⟨⟨rfl, rfl, by decide⟩,
    c10_upgrade_frame 0 gC10 1 none none none "" ⟨1, 0, 0, 0, 1, 3⟩ 5 rfl rfl (by decide)⟩

/-! ### HandleVotes lemmas -/

theorem addU32_some {a b c : Nat} (h : addU32 a b = some c) : c = a + b ∧ a + b < 2 ^ 32 := by
  unfold addU32 at h
  by_cases hb : a + b < 2 ^ 32
  · rw [if_pos hb] at h
    exact ⟨(Option.some.inj h).symm, hb⟩
  · rw [if_neg hb] at h
    cases h

theorem bumpAll_lookup :
    ∀ (ps ps' : List (Int × Player)) (i : Int),
      bumpAll ps = some ps' →
      lookupA ps' i = (lookupA ps i).map (fun p => { p with points := p.points + 1 }) := by
  intro ps
  induction ps with
  | nil =>
    intro ps' i h
    cases h
    rfl
  | cons kv rest ih =>
    intro ps' i h
    cases kv with
    | mk k p =>
      unfold bumpAll at h
      cases hadd : addU32 p.points 1 with
      | none => rw [hadd] at h; cases h
      | some pts =>
        rw [hadd] at h
        cases hb : bumpAll rest with
        | none => rw [hb] at h; cases h
        | some r =>
          rw [hb] at h
          cases h
          have hpts : pts = p.points + 1 := (addU32_some hadd).1
          by_cases hk : k = i
          · subst hk
            simp [lookupA, hpts]
          · simp [lookupA, hk, ih r i hb]

theorem voteCount_cons (kv : Int × Int) (rest : List (Int × Int)) (t : Int) :
    voteCount (kv :: rest) t = (if kv.2 = t then 1 else 0) + voteCount rest t := by
  by_cases h : kv.2 = t
  · simp [voteCount, List.filter_cons, h]
    omega
  · simp [voteCount, List.filter_cons, h]

theorem tally_foldl_getD (vs : List (Int × Int)) :
    ∀ (acc : List (Int × Nat)) (t : Int),
      (lookupA (vs.foldl (fun a kv => bumpCount a kv.2) acc) t).getD 0 =
        (lookupA acc t).getD 0 + voteCount vs t := by
  induction vs with
  | nil =>
    intro acc t
    simp [voteCount]
  | cons kv rest ih =>
    intro acc t
    rw [List.foldl_cons, ih]
    have hbc : (lookupA (bumpCount acc kv.2) t).getD 0 =
        (lookupA acc t).getD 0 + (if kv.2 = t then 1 else 0) := by
      unfold bumpCount
      by_cases h : kv.2 = t
      · subst h
        rw [lookupA_insertA_self]
        simp
      · rw [lookupA_insertA_ne _ _ (fun e => h e.symm)]
        simp [h]
    rw [hbc, voteCount_cons]
    omega

theorem tally_foldl_none (vs : List (Int × Int)) :
    ∀ (acc : List (Int × Nat)) (t : Int),
      lookupA (vs.foldl (fun a kv => bumpCount a kv.2) acc) t = none ↔
        (lookupA acc t = none ∧ voteCount vs t = 0) := by
  induction vs with
  | nil =>
    intro acc t
    simp [voteCount]
  | cons kv rest ih =>
    intro acc t
    rw [List.foldl_cons, ih, voteCount_cons]
    constructor
    · rintro ⟨h1, h2⟩
      unfold bumpCount at h1
      by_cases h : kv.2 = t
      · subst h
        rw [lookupA_insertA_self] at h1
        cases h1
      · rw [lookupA_insertA_ne _ _ (fun e => h e.symm)] at h1
        refine ⟨h1, ?_⟩
        simp [h, h2]
    · rintro ⟨h1, h2⟩
      by_cases h : kv.2 = t
      · simp [h] at h2
      · refine ⟨?_, ?_⟩
        · unfold bumpCount
          rw [lookupA_insertA_ne _ _ (fun e => h e.symm)]
          exact h1
        · simpa [h] using h2

theorem tally_getD (vs : List (Int × Int)) (t : Int) :
    (lookupA (tally vs) t).getD 0 = voteCount vs t := by
  unfold tally
  rw [tally_foldl_getD]
  simp [lookupA]

theorem tally_none (vs : List (Int × Int)) (t : Int) :
    lookupA (tally vs) t = none ↔ voteCount vs t = 0 := by
  unfold tally
  rw [tally_foldl_none]
  simp [lookupA]

theorem tally_nodupKeys (vs : List (Int × Int)) : nodupKeys (tally vs) := by
  unfold tally
  suffices h : ∀ acc : List (Int × Nat), nodupKeys acc →
      nodupKeys (vs.foldl (fun a kv => bumpCount a kv.2) acc) by
    exact h [] (by simp [nodupKeys])
  induction vs with
  | nil =>
    intro acc h
    simpa using h
  | cons kv rest ih =>
    intro acc h
    rw [List.foldl_cons]
    exact ih _ (nodupKeys_insertA _ _ h)

theorem nodup_filter_map_keys {α : Type} (l : List (Int × α)) (q : Int × α → Bool)
    (h : nodupKeys l) : ((l.filter q).map Prod.fst).Nodup := by
  have hsub : List.Sublist ((l.filter q).map Prod.fst) (l.map Prod.fst) :=
    List.Sublist.map _ (List.filter_sublist l)
  exact List.Nodup.sublist hsub h

theorem mem_filter_map_keys {α : Type} {l : List (Int × α)} {q : Int × α → Bool} {i : Int} :
    i ∈ (l.filter q).map Prod.fst ↔ ∃ c, (i, c) ∈ l ∧ q (i, c) = true := by
  rw [List.mem_map]
  constructor
  · rintro ⟨⟨a, b⟩, hm, rfl⟩
    rcases List.mem_filter.mp hm with ⟨hmem, hq⟩
    exact ⟨b, hmem, hq⟩
  · rintro ⟨c, hm, hq⟩
    exact ⟨(i, c), List.mem_filter.mpr ⟨hm, hq⟩, rfl⟩

theorem applyBonus_lookup_not_mem :
    ∀ (ws : List Int) (ps ps' : List (Int × Player)) (i : Int),
      applyBonus ws ps = some ps' → i ∉ ws → lookupA ps' i = lookupA ps i := by
  intro ws
  induction ws with
  | nil =>
    intro ps ps' i h hm
    cases h
    rfl
  | cons t rest ih =>
    intro ps ps' i h hm
    have hit : i ≠ t := fun e => hm (e ▸ List.mem_cons_self t rest)
    have hmr : i ∉ rest := fun e => hm (List.mem_cons_of_mem _ e)
    unfold applyBonus at h
    cases hlt : lookupA ps t with
    | none =>
      rw [hlt] at h
      exact ih _ _ _ h hmr
    | some p =>
      rw [hlt] at h
      by_cases hal : p.health ≠ 0
      · simp only [if_pos hal] at h
        cases hadd : addU32 p.points 1 with
        | none => rw [hadd] at h; cases h
        | some pts =>
          rw [hadd] at h
          rw [ih _ _ _ h hmr, lookupA_insertA_ne _ _ hit]
      · simp only [if_neg hal] at h
        exact ih _ _ _ h hmr

theorem applyBonus_lookup_mem :
    ∀ (ws : List Int) (ps ps' : List (Int × Player)) (i : Int) (p : Player),
      ws.Nodup → i ∈ ws → applyBonus ws ps = some ps' → lookupA ps i = some p →
      lookupA ps' i =
        some (if p.health ≠ 0 then { p with points := p.points + 1 } else p) := by
  intro ws
  induction ws with
  | nil =>
    intro ps ps' i p hnd hm
    cases hm
  | cons t rest ih =>
    intro ps ps' i p hnd hm h hp
    by_cases hit : i = t
    · subst hit
      have hir : i ∉ rest := (List.nodup_cons.mp hnd).1
      unfold applyBonus at h
      rw [hp] at h
      by_cases hal : p.health ≠ 0
      · simp only [if_pos hal] at h
        cases hadd : addU32 p.points 1 with
        | none => rw [hadd] at h; cases h
        | some pts =>
          rw [hadd] at h
          rw [applyBonus_lookup_not_mem rest _ _ i h hir, lookupA_insertA_self,
            (addU32_some hadd).1, if_pos hal]
      · simp only [if_neg hal] at h
        rw [applyBonus_lookup_not_mem rest _ _ i h hir, hp, if_neg hal]
    · have hmr : i ∈ rest := (List.mem_cons.mp hm).resolve_left hit
      have hndr : rest.Nodup := (List.nodup_cons.mp hnd).2
      unfold applyBonus at h
      cases hlt : lookupA ps t with
      | none =>
        rw [hlt] at h
        exact ih _ _ _ _ hndr hmr h hp
      | some q =>
        rw [hlt] at h
        by_cases hal : q.health ≠ 0
        · simp only [if_pos hal] at h
          cases hadd : addU32 q.points 1 with
          | none => rw [hadd] at h; cases h
          | some pts =>
            rw [hadd] at h
            refine ih _ _ _ _ hndr hmr h ?_
            rw [lookupA_insertA_ne _ _ hit]
            exact hp
        · simp only [if_neg hal] at h
          exact ih _ _ _ _ hndr hmr h hp

/-! ### Claim C7 -/

/-- Claim C7: after a completed HandleVotes commit on a game whose vote map is
well-formed (one entry per voter), the vote map is empty, and every player
gained exactly one point — two points when the player is alive and at least
`vote_threshold` distinct voters voted for them. -/
theorem c7_handle_votes (fuel : Nat) (g : Game) (xo yo : Option Nat) (tgt : Option Int)
    (auth : Int) (sig : String) (g' : Game) (i : Int) (p : Player)
    (_hnd : nodupKeys g.votes)
    (hcommit : handleUnchecked fuel g ⟨.HandleVotes, xo, yo, tgt, auth, sig⟩ = some g')
    (hi : lookupA g.players i = some p) :
    g'.votes = [] ∧
    lookupA g'.players i = some { p with points := p.points +
      (if p.health ≠ 0 ∧ 1 ≤ voteCount g.votes i ∧
          g.settings.vote_threshold ≤ voteCount g.votes i
       then 2 else 1) } := by
  simp only [handleUnchecked] at hcommit
  cases hb : bumpAll g.players with
  | none => rw [hb] at hcommit; cases hcommit
  | some ps =>
    rw [hb] at hcommit
    simp only [Option.bind_eq_bind, Option.some_bind] at hcommit
    cases ha : applyBonus
        (((tally g.votes).filter
            (fun kv => decide (g.settings.vote_threshold ≤ kv.2))).map Prod.fst) ps with
    | none => rw [ha] at hcommit; cases hcommit
    | some ps2 =>
      rw [ha] at hcommit
      simp only [Option.some_bind] at hcommit
      have hg2 := Option.some.inj hcommit
      subst hg2
      refine ⟨rfl, ?_⟩
      show lookupA ps2 i = _
      have hp1 : lookupA ps i = some { p with points := p.points + 1 } := by
        rw [bumpAll_lookup _ _ _ hb, hi]
        rfl
      have hwnd : (((tally g.votes).filter
          (fun kv => decide (g.settings.vote_threshold ≤ kv.2))).map Prod.fst).Nodup :=
        nodup_filter_map_keys _ _ (tally_nodupKeys g.votes)
      have hmem_iff : ∀ j : Int,
          j ∈ ((tally g.votes).filter
              (fun kv => decide (g.settings.vote_threshold ≤ kv.2))).map Prod.fst ↔
            1 ≤ voteCount g.votes j ∧ g.settings.vote_threshold ≤ voteCount g.votes j := by
        intro j
        rw [mem_filter_map_keys]
        constructor
        · rintro ⟨c, hm, hq⟩
          have hlk := lookupA_eq_of_mem (tally_nodupKeys g.votes) hm
          have hgd := tally_getD g.votes j
          rw [hlk] at hgd
          simp at hgd
          subst hgd
          refine ⟨?_, of_decide_eq_true hq⟩
          by_contra h0
          have hz : voteCount g.votes j = 0 := by omega
          have := (tally_none g.votes j).mpr hz
          rw [this] at hlk
          cases hlk
        · rintro ⟨h1, h2⟩
          cases hlk : lookupA (tally g.votes) j with
          | none =>
            have := (tally_none g.votes j).mp hlk
            omega
          | some c =>
            have hgd := tally_getD g.votes j
            rw [hlk] at hgd
            simp at hgd
            subst hgd
            exact ⟨voteCount g.votes j, mem_of_lookupA_eq hlk, decide_eq_true h2⟩
      by_cases hcond : p.health ≠ 0 ∧ 1 ≤ voteCount g.votes i ∧
          g.settings.vote_threshold ≤ voteCount g.votes i
      · rw [if_pos hcond]
        have hwin := (hmem_iff i).mpr hcond.2
        have hlk := applyBonus_lookup_mem _ _ _ _ _ hwnd hwin ha hp1
        rw [hlk, if_pos (show ({ p with points := p.points + 1 } : Player).health ≠ 0
          from hcond.1)]
      · rw [if_neg hcond]
        by_cases hwin : i ∈ ((tally g.votes).filter
            (fun kv => decide (g.settings.vote_threshold ≤ kv.2))).map Prod.fst
        · have hq := (hmem_iff i).mp hwin
          have hdead : ¬({ p with points := p.points + 1 } : Player).health ≠ 0 := by
            intro hal
            exact hcond ⟨hal, hq⟩
          have hlk := applyBonus_lookup_mem _ _ _ _ _ hwnd hwin ha hp1
          rw [hlk, if_neg hdead]
        · rw [applyBonus_lookup_not_mem _ _ _ _ ha hwin, hp1]

/-- Witness for claim C7 at the fixture `gC7`: with `vote_threshold = 1`, one
vote by the dead player 1 for the living player 2; after HandleVotes the votes
are cleared, player 2 gains two points. -/
theorem c7_handle_votes_witness :
    (nodupKeys gC7.votes ∧ handleUnchecked 0 gC7 lineC7 = some gC7' ∧
     lookupA gC7.players 2 = some ⟨2, 1, 1, 0, 3, 3⟩) ∧
    (gC7'.votes = [] ∧
     lookupA gC7'.players 2 = some ⟨2, 1, 1, 0, 5, 3⟩) :=
  ⟨⟨by decide, rfl, rfl⟩,
    c7_handle_votes 0 gC7 none none none 1 "" gC7' 2 ⟨2, 1, 1, 0, 3, 3⟩
      (by decide) rfl rfl⟩

/-! ### Board-invariant machinery (claim C8) -/

theorem load_ok_inv {verify : MoveLine → List MoveLine → Bool} {fuel : Nat} {g g' : Game}
    {line : MoveLine} (h : load verify fuel g line = some (Except.ok (), g')) :
    check fuel g line = some (Except.ok ()) ∧ handleUnchecked fuel g line = some g' := by
  unfold load at h
  by_cases hv : verify line g.lines
  · rw [if_pos hv] at h
    cases hc : check fuel g line with
    | none => rw [hc] at h; cases h
    | some res =>
      rw [hc] at h
      match res with
      | .error e => simp at h
      | .ok () =>
        cases hh : handleUnchecked fuel g line with
        | none => rw [hh] at h; cases h
        | some g2 =>
          rw [hh] at h
          simp at h
          exact ⟨rfl, congrArg some h⟩
  · rw [if_neg hv] at h
    simp at h

theorem posInj_of_fwd {players : List (Int × Player)} {board : List ((Nat × Nat) × Int)}
    (hfwd : ∀ i p, lookupA players i = some p → lookupA board (p.x, p.y) = some i) :
    ∀ i j p q, lookupA players i = some p → lookupA players j = some q →
      p.x = q.x → p.y = q.y → i = j := by
  intro i j p q hi hj hx hy
  have h1 := hfwd i p hi
  have h2 := hfwd j q hj
  rw [hx, hy] at h1
  rw [h1] at h2
  exact Option.some.inj h2

theorem posPreserved_refl (ps : List (Int × Player)) : posPreserved ps ps := fun _ => rfl

theorem posPreserved_trans {a b c : List (Int × Player)}
    (h1 : posPreserved a b) (h2 : posPreserved b c) : posPreserved a c :=
  fun i => (h2 i).trans (h1 i)

theorem posPreserved_insertA {ps : List (Int × Player)} {k : Int} {q : Player} (q' : Player)
    (hq : lookupA ps k = some q) (hx : q'.x = q.x) (hy : q'.y = q.y) :
    posPreserved ps (insertA k q' ps) := by
  intro i
  by_cases hk : i = k
  · subst hk
    rw [lookupA_insertA_self, hq]
    simp [hx, hy]
  · rw [lookupA_insertA_ne _ _ hk]

theorem boardInv_transfer {g g' : Game} (hinv : boardInv g)
    (hb : g'.board = g.board) (hpp : posPreserved g.players g'.players) : boardInv g' := by
  obtain ⟨hfwd, hbwd, -⟩ := hinv
  have hfwd' : ∀ i p, lookupA g'.players i = some p →
      lookupA g'.board (p.x, p.y) = some i := by
    intro i p hip
    have hmap := hpp i
    rw [hip] at hmap
    cases hgi : lookupA g.players i with
    | none => rw [hgi] at hmap; simp at hmap
    | some q =>
      rw [hgi] at hmap
      simp at hmap
      rw [hb, hmap.1, hmap.2]
      exact hfwd i q hgi
  refine ⟨hfwd', ?_, posInj_of_fwd hfwd'⟩
  intro pos i hpos
  rw [hb] at hpos
  obtain ⟨q, hq, hqx, hqy⟩ := hbwd pos i hpos
  have hmap := hpp i
  rw [hq] at hmap
  cases hgi : lookupA g'.players i with
  | none => rw [hgi] at hmap; simp at hmap
  | some p' =>
    rw [hgi] at hmap
    simp at hmap
    exact ⟨p', rfl, by rw [hmap.1, hqx], by rw [hmap.2, hqy]⟩

theorem bumpAll_posPreserved {ps ps' : List (Int × Player)} (h : bumpAll ps = some ps') :
    posPreserved ps ps' := by
  intro i
  rw [bumpAll_lookup _ _ _ h]
  cases lookupA ps i <;> rfl

theorem applyBonus_posPreserved :
    ∀ (ws : List Int) (ps ps' : List (Int × Player)),
      applyBonus ws ps = some ps' → posPreserved ps ps' := by
  intro ws
  induction ws with
  | nil =>
    intro ps ps' h
    cases h
    exact posPreserved_refl ps
  | cons t rest ih =>
    intro ps ps' h
    unfold applyBonus at h
    cases hlt : lookupA ps t with
    | none =>
      rw [hlt] at h
      exact ih _ _ h
    | some p =>
      rw [hlt] at h
      by_cases hal : p.health ≠ 0
      · simp only [if_pos hal] at h
        cases hadd : addU32 p.points 1 with
        | none => rw [hadd] at h; cases h
        | some pts =>
          rw [hadd] at h
          have h2 : applyBonus rest (insertA t { p with points := pts } ps) = some ps' := h
          exact posPreserved_trans (posPreserved_insertA { p with points := pts } hlt rfl rfl)
            (ih _ _ h2)
      · simp only [if_neg hal] at h
        exact ih _ _ h

theorem boardInv_shoot {fuel : Nat} {g g' : Game} {xo yo : Option Nat} {tgt : Option Int}
    {auth : Int} {sig : String}
    (hnd : handleUnchecked fuel g ⟨.Shoot, xo, yo, tgt, auth, sig⟩ = some g')
    (hinv : boardInv g) : boardInv g' := by
  simp only [handleUnchecked] at hnd
  cases tgt with
  | none => cases hnd
  | some tid =>
    simp only [Option.bind_eq_bind, Option.some_bind] at hnd
    cases ht : lookupA g.players tid with
    | none => rw [ht] at hnd; cases hnd
    | some t =>
      rw [ht] at hnd
      simp only [Option.some_bind] at hnd
      cases hh : subU32 t.health 1 with
      | none => rw [hh] at hnd; cases hnd
      | some h2 =>
        rw [hh] at hnd
        simp only [Option.some_bind] at hnd
        cases hp2 : lookupA
            (insertA tid { t with health := h2, points := if h2 = 0 then 0 else t.points }
              g.players) auth with
        | none => rw [hp2] at hnd; cases hnd
        | some p2 =>
          rw [hp2] at hnd
          simp only [Option.some_bind] at hnd
          cases hs2 : subU32 p2.points 1 with
          | none => rw [hs2] at hnd; cases hnd
          | some pts =>
            rw [hs2] at hnd
            simp only [Option.some_bind] at hnd
            cases ha2 : addU32 pts (if h2 = 0 then t.points else 0) with
            | none => rw [ha2] at hnd; cases hnd
            | some pts2 =>
              rw [ha2] at hnd
              simp only [Option.some_bind] at hnd
              have hg2 := Option.some.inj hnd
              subst hg2
              refine boardInv_transfer hinv rfl ?_
              exact posPreserved_trans
                (posPreserved_insertA
                  { t with health := h2, points := if h2 = 0 then 0 else t.points } ht rfl rfl)
                (posPreserved_insertA { p2 with points := pts2 } hp2 rfl rfl)

theorem boardInv_gift {fuel : Nat} {g g' : Game} {xo yo : Option Nat} {tgt : Option Int}
    {auth : Int} {sig : String}
    (hnd : handleUnchecked fuel g ⟨.Gift, xo, yo, tgt, auth, sig⟩ = some g')
    (hinv : boardInv g) : boardInv g' := by
  simp only [handleUnchecked] at hnd
  cases tgt with
  | none => cases hnd
  | some tid =>
    simp only [Option.bind_eq_bind, Option.some_bind] at hnd
    cases hp : lookupA g.players auth with
    | none => rw [hp] at hnd; cases hnd
    | some p =>
      rw [hp] at hnd
      simp only [Option.some_bind] at hnd
      cases hs : subU32 p.points 1 with
      | none => rw [hs] at hnd; cases hnd
      | some pts =>
        rw [hs] at hnd
        simp only [Option.some_bind] at hnd
        cases ht2 : lookupA (insertA auth { p with points := pts } g.players) tid with
        | none => rw [ht2] at hnd; cases hnd
        | some t2 =>
          rw [ht2] at hnd
          simp only [Option.some_bind] at hnd
          cases ha2 : addU32 t2.points 1 with
          | none => rw [ha2] at hnd; cases hnd
          | some tpts =>
            rw [ha2] at hnd
            simp only [Option.some_bind] at hnd
            have hg2 := Option.some.inj hnd
            subst hg2
            refine boardInv_transfer hinv rfl ?_
            exact posPreserved_trans
              (posPreserved_insertA { p with points := pts } hp rfl rfl)
              (posPreserved_insertA { t2 with points := tpts } ht2 rfl rfl)

theorem boardInv_vote {fuel : Nat} {g g' : Game} {xo yo : Option Nat} {tgt : Option Int}
    {auth : Int} {sig : String}
    (hnd : handleUnchecked fuel g ⟨.Vote, xo, yo, tgt, auth, sig⟩ = some g')
    (hinv : boardInv g) : boardInv g' := by
  simp only [handleUnchecked] at hnd
  cases tgt with
  | none => cases hnd
  | some tid =>
    simp only [Option.bind_eq_bind, Option.some_bind] at hnd
    have hg2 := Option.some.inj hnd
    subst hg2
    exact boardInv_transfer hinv rfl (posPreserved_refl _)

theorem boardInv_handle_votes {fuel : Nat} {g g' : Game} {xo yo : Option Nat}
    {tgt : Option Int} {auth : Int} {sig : String}
    (hnd : handleUnchecked fuel g ⟨.HandleVotes, xo, yo, tgt, auth, sig⟩ = some g')
    (hinv : boardInv g) : boardInv g' := by
  simp only [handleUnchecked] at hnd
  cases hb : bumpAll g.players with
  | none => rw [hb] at hnd; cases hnd
  | some ps =>
    rw [hb] at hnd
    simp only [Option.bind_eq_bind, Option.some_bind] at hnd
    cases ha : applyBonus
        (((tally g.votes).filter
            (fun kv => decide (g.settings.vote_threshold ≤ kv.2))).map Prod.fst) ps with
    | none => rw [ha] at hnd; cases hnd
    | some ps2 =>
      rw [ha] at hnd
      simp only [Option.some_bind] at hnd
      have hg2 := Option.some.inj hnd
      subst hg2
      exact boardInv_transfer hinv rfl
        (posPreserved_trans (bumpAll_posPreserved hb) (applyBonus_posPreserved _ _ _ ha))

theorem boardInv_upgrade {fuel : Nat} {g g' : Game} {xo yo : Option Nat} {tgt : Option Int}
    {auth : Int} {sig : String}
    (hnd : handleUnchecked fuel g ⟨.Upgrade, xo, yo, tgt, auth, sig⟩ = some g')
    (hinv : boardInv g) : boardInv g' := by
  simp only [handleUnchecked] at hnd
  cases hp : lookupA g.players auth with
  | none =>
    rw [hp] at hnd
    cases hnd
  | some p =>
    rw [hp] at hnd
    simp only [Option.bind_eq_bind, Option.some_bind] at hnd
    cases hl : addU32 p.level 1 with
    | none => rw [hl] at hnd; cases hnd
    | some lv =>
      rw [hl] at hnd
      simp only [Option.some_bind] at hnd
      have hg2 := Option.some.inj hnd
      subst hg2
      exact boardInv_transfer hinv rfl (posPreserved_insertA { p with level := lv } hp rfl rfl)

theorem check_join_ok_not_mem {fuel : Nat} {g : Game} {xo yo : Option Nat}
    {tgt : Option Int} {auth : Int} {sig : String}
    (h : check fuel g ⟨.Join, xo, yo, tgt, auth, sig⟩ = some (Except.ok ())) :
    lookupA g.players auth = none := by
  by_cases hm : (lookupA g.players auth).isSome
  · simp [check, hm] at h
  · exact Option.not_isSome_iff_eq_none.mp hm

theorem getPosMut_unoccupied {fuel : Nat} {g : Game} {pr : (Nat × Nat) × (Nat → Nat)}
    (h : getPosMut fuel g = some pr) : lookupA g.board pr.1 = none := by
  unfold getPosMut at h
  cases hres : findPosAux g.settings.width g.settings.height g.board g.rand fuel (0, 0) 0 with
  | none => rw [hres] at h; cases h
  | some res =>
    rw [hres] at h
    simp at h
    have hun := findPosAux_unoccupied fuel (0, 0) 0 res hres
    rw [← h]
    exact hun

theorem boardInv_join {fuel : Nat} {g g' : Game} {xo yo : Option Nat} {tgt : Option Int}
    {auth : Int} {sig : String}
    (hchk : check fuel g ⟨.Join, xo, yo, tgt, auth, sig⟩ = some (Except.ok ()))
    (hnd : handleUnchecked fuel g ⟨.Join, xo, yo, tgt, auth, sig⟩ = some g')
    (hinv : boardInv g) : boardInv g' := by
  have hnew := check_join_ok_not_mem hchk
  simp only [handleUnchecked] at hnd
  cases hgp : getPosMut fuel g with
  | none => rw [hgp] at hnd; cases hnd
  | some pr =>
    rw [hgp] at hnd
    simp only [Option.bind_eq_bind, Option.some_bind] at hnd
    have hg2 := Option.some.inj hnd
    subst hg2
    have hfree : lookupA g.board pr.1 = none := getPosMut_unoccupied hgp
    obtain ⟨hfwd, hbwd, -⟩ := hinv
    have hfwd' : ∀ i p,
        lookupA (insertA auth
          ⟨auth, pr.1.1, pr.1.2, 0, 1, g.settings.health⟩ g.players) i = some p →
        lookupA (insertA pr.1 auth g.board) (p.x, p.y) = some i := by
      intro i p hip
      by_cases hia : i = auth
      · subst hia
        rw [lookupA_insertA_self] at hip
        have hp := Option.some.inj hip
        rw [← hp]
        exact lookupA_insertA_self pr.1 i g.board
      · rw [lookupA_insertA_ne _ _ hia] at hip
        have hbd := hfwd i p hip
        have hne : ((p.x, p.y) : Nat × Nat) ≠ pr.1 := by
          intro e
          rw [e, hfree] at hbd
          cases hbd
        rw [lookupA_insertA_ne _ _ hne]
        exact hbd
    refine ⟨hfwd', ?_, posInj_of_fwd hfwd'⟩
    intro pos i hpos
    by_cases hpp : pos = pr.1
    · rw [hpp, lookupA_insertA_self] at hpos
      have hi := Option.some.inj hpos
      refine ⟨⟨auth, pr.1.1, pr.1.2, 0, 1, g.settings.health⟩, ?_, ?_, ?_⟩
      · rw [← hi]
        exact lookupA_insertA_self auth _ g.players
      · rw [hpp]
      · rw [hpp]
    · rw [lookupA_insertA_ne _ _ hpp] at hpos
      obtain ⟨q, hq, hqx, hqy⟩ := hbwd pos i hpos
      have hia : i ≠ auth := by
        intro e
        rw [e, hnew] at hq
        cases hq
      rw [lookupA_insertA_ne _ _ hia]
      exact ⟨q, hq, hqx, hqy⟩

theorem check_drive_ok_free {fuel : Nat} {g : Game} {x y : Nat} {tgt : Option Int}
    {auth : Int} {sig : String}
    (h : check fuel g ⟨.Drive, some x, some y, tgt, auth, sig⟩ = some (Except.ok ())) :
    lookupA g.board (x, y) = none := by
  cases hp : lookupA g.players auth with
  | none => simp [check, hp] at h
  | some p =>
    by_cases hal : p.health = 0
    · simp [check, hp, Player.is_alive, hal] at h
    · by_cases hpt : p.points = 0
      · simp [check, hp, Player.is_alive, Player.has_points, hal, hpt] at h
      · by_cases hocc : (lookupA g.board (x, y)).isSome
        · simp [check, hp, Player.is_alive, Player.has_points, hal, hpt, hocc] at h
        · exact Option.not_isSome_iff_eq_none.mp hocc

theorem boardInv_drive {fuel : Nat} {g g' : Game} {xo yo : Option Nat} {tgt : Option Int}
    {auth : Int} {sig : String}
    (hchk : check fuel g ⟨.Drive, xo, yo, tgt, auth, sig⟩ = some (Except.ok ()))
    (hnd : handleUnchecked fuel g ⟨.Drive, xo, yo, tgt, auth, sig⟩ = some g')
    (hinv : boardInv g) : boardInv g' := by
  simp only [handleUnchecked] at hnd
  cases xo with
  | none => cases hnd
  | some x =>
    cases yo with
    | none => cases hnd
    | some y =>
      simp only [Option.bind_eq_bind, Option.some_bind] at hnd
      cases hp : lookupA g.players auth with
      | none => rw [hp] at hnd; cases hnd
      | some player =>
        rw [hp] at hnd
        simp only [Option.some_bind] at hnd
        cases hs : subU32 player.points 1 with
        | none => rw [hs] at hnd; cases hnd
        | some pts =>
          rw [hs] at hnd
          simp only [Option.some_bind] at hnd
          have hg2 := Option.some.inj hnd
          subst hg2
          have hfree : lookupA g.board (x, y) = none := check_drive_ok_free hchk
          obtain ⟨hfwd, hbwd, -⟩ := hinv
          have hselfbd : lookupA g.board (player.x, player.y) = some auth := hfwd auth player hp
          have hfwd' : ∀ i p,
              lookupA (insertA auth { player with points := pts, x := x, y := y } g.players) i =
                some p →
              lookupA (insertA (x, y) auth (eraseA (player.x, player.y) g.board)) (p.x, p.y) =
                some i := by
            intro i p hip
            by_cases hia : i = auth
            · subst hia
              rw [lookupA_insertA_self] at hip
              have hpe := Option.some.inj hip
              rw [← hpe]
              exact lookupA_insertA_self (x, y) i (eraseA (player.x, player.y) g.board)
            · rw [lookupA_insertA_ne _ _ hia] at hip
              have hbd := hfwd i p hip
              have hne1 : ((p.x, p.y) : Nat × Nat) ≠ (x, y) := by
                intro e
                rw [e, hfree] at hbd
                cases hbd
              have hne2 : ((p.x, p.y) : Nat × Nat) ≠ (player.x, player.y) := by
                intro e
                rw [e, hselfbd] at hbd
                exact hia (Option.some.inj hbd).symm
              rw [lookupA_insertA_ne _ _ hne1, lookupA_eraseA_ne _ hne2]
              exact hbd
          refine ⟨hfwd', ?_, posInj_of_fwd hfwd'⟩
          intro pos i hpos
          by_cases hpp : pos = (x, y)
          · rw [hpp, lookupA_insertA_self] at hpos
            have hi := Option.some.inj hpos
            refine ⟨{ player with points := pts, x := x, y := y }, ?_, ?_, ?_⟩
            · rw [← hi]
              exact lookupA_insertA_self auth _ g.players
            · rw [hpp]
            · rw [hpp]
          · rw [lookupA_insertA_ne _ _ hpp] at hpos
            obtain ⟨hneold, hold⟩ := lookupA_eraseA_some hpos
            obtain ⟨q, hq, hqx, hqy⟩ := hbwd pos i hold
            have hia : i ≠ auth := by
              intro e
              rw [e, hp] at hq
              have hqe := Option.some.inj hq
              apply hneold
              rw [hqe, hqx, hqy]
            rw [lookupA_insertA_ne _ _ hia]
            exact ⟨q, hq, hqx, hqy⟩

/-! ### Claim C8 -/

/-- Claim C8: in every game state reachable by committing validated moves from
a fresh game, the board is the exact inverse of the players' position fields:
the board maps each player's position to their id, every board entry comes
from such a player, and no two players share a position. -/
theorem c8_board_inverse (g : Game) (hr : Reachable g) : boardInv g := by
  induction hr with
  | base id settings stream =>
    refine ⟨?_, ?_, ?_⟩
    · intro i p hip
      cases hip
    · intro pos i hpos
      cases hpos
    · intro i j p q h1 h2 hx hy
      cases h1
  | step line verify fuel hr hload ih =>
    obtain ⟨hchk, hnd⟩ := load_ok_inv hload
    obtain ⟨mt, xo, yo, tgt, auth, sig⟩ := line
    cases mt with
    | Join => exact boardInv_join hchk hnd ih
    | Drive => exact boardInv_drive hchk hnd ih
    | Shoot => exact boardInv_shoot hnd ih
    | Gift => exact boardInv_gift hnd ih
    | Vote => exact boardInv_vote hnd ih
    | HandleVotes => exact boardInv_handle_votes hnd ih
    | Upgrade => exact boardInv_upgrade hnd ih

/-- Witness for claim C8: the fresh game is reachable and satisfies the
invariant. -/
theorem c8_board_inverse_witness : Reachable gFresh ∧ boardInv gFresh :=
  ⟨Reachable.base 0 defaultSettings zeroStream,
    c8_board_inverse gFresh (Reachable.base 0 defaultSettings zeroStream)⟩

end TankTactics
